import Mathlib

/-!
Verification of the analyzable core of the CASCADE Living OS repository:
the AURA scoring/validation pipeline (`lib/aura/index.ts`) and the streak
engine (`lib/utils.ts`).

Modelling conventions:
* JavaScript numbers are modelled as rationals (`ℚ`); every operation the
  embedded code performs on them (comparison, addition, subtraction,
  multiplication, division by a nonzero value, `Math.max`, `Math.min`,
  `Math.round`) is exact here.
* Wall-clock time (`Date.now()`) is passed in as an explicit `now : Int`
  parameter, following the dependency-injection reading the spec gives for
  the time source.
* A calendar-day key (`getDateKey` in the source builds it from
  `toISOString`, hence it is a UTC date string) is modelled as the UTC day
  index `ts.fdiv 86400000`; two timestamps receive equal keys iff they
  share a UTC calendar day, and the lexicographic sort the source applies
  to ISO date-key strings coincides with the numeric order of day indices
  for the four-digit-year era the application operates in. Day arithmetic
  (`setDate(getDate() - 1)`) is modelled as subtracting one day index,
  which is the source behaviour under the fixed UTC day-boundary policy
  the spec asks the implementer to pick.
* The stable JavaScript `Array.prototype.sort` is modelled by a stable
  insertion sort.
* String interpolation of numbers inside warning messages is abstracted by
  `numStr`; no claim depends on the decimal rendering of a number.
-/

-- ============================================================================
-- AURA protocol: types (lib/aura/index.ts)
-- ============================================================================

/-- The string-literal union type of metric names in the source. -/
inductive MetricKind
  | TES
  | VTR
  | PAI
deriving DecidableEq, Repr

/-- The string-literal union type of warning severities in the source. -/
inductive Severity
  | low
  | medium
  | high
deriving DecidableEq, Repr

/-- The anonymous metric-estimate triple the source passes around. -/
structure MetricTriple where
  TES : ℚ
  VTR : ℚ
  PAI : ℚ
deriving DecidableEq, Repr

/-- Embeds the `AURAThresholds` interface. -/
structure AURAThresholds where
  TES : ℚ
  VTR : ℚ
  PAI : ℚ
deriving DecidableEq, Repr

/-- Embeds the `AURAWarning` interface. -/
structure AURAWarning where
  metric : MetricKind
  message : String
  suggestion : String
  severity : Severity
deriving DecidableEq, Repr

/-- Embeds the `AURAMetrics` interface. -/
structure AURAMetrics where
  TES : ℚ
  VTR : ℚ
  PAI : ℚ
  valid : Bool
  warnings : List AURAWarning
  timestamp : Int
deriving DecidableEq, Repr

/-- Embeds the `VectorInversion` interface. -/
structure VectorInversion where
  originalIntent : String
  failedMetric : MetricKind
  failureReason : String
  invertedSolution : String
  newMetrics : AURAMetrics
deriving DecidableEq, Repr

/-- Embeds the `AURAPreset` string-literal union. -/
inductive AURAPreset
  | conservative
  | moderate
  | permissive
  | creative
  | medical
deriving DecidableEq, Repr

/-- Embeds the `AURA_PRESETS` constant record. -/
def AURA_PRESETS : AURAPreset → AURAThresholds
  | AURAPreset.conservative => { TES := 0.85, VTR := 2.0, PAI := 0.90 }
  | AURAPreset.moderate => { TES := 0.70, VTR := 1.5, PAI := 0.80 }
  | AURAPreset.permissive => { TES := 0.60, VTR := 1.2, PAI := 0.70 }
  | AURAPreset.creative => { TES := 0.65, VTR := 1.8, PAI := 0.75 }
  | AURAPreset.medical => { TES := 0.85, VTR := 2.0, PAI := 0.90 }

/-- Abstraction of JavaScript number-to-string interpolation inside template
literals; no claim inspects the rendered digits. -/
def numStr (q : ℚ) : String := toString q

-- ============================================================================
-- AURA protocol: metric calculators (lib/aura/index.ts)
-- ============================================================================

/-- JavaScript `Math.round`: round half toward positive infinity. -/
def jsRound (q : ℚ) : Int := ⌊q + 1 / 2⌋

/-- The `Math.round(x * 100) / 100` idiom used throughout the source. -/
def round2 (q : ℚ) : ℚ := (jsRound (q * 100) : ℚ) / 100

/-- Parameter record of `calculateTES`. -/
structure TESParams where
  totalElements : ℚ
  essentialElements : ℚ
  clarityScore : ℚ
  anxietyInduced : ℚ
deriving DecidableEq, Repr

/-- Embeds `calculateTES`. -/
def calculateTES (params : TESParams) : ℚ :=
  if params.totalElements = 0 then 1.0
  else
    let necessaryRatio := params.essentialElements / params.totalElements
    let frictionPenalty := params.anxietyInduced * 0.3
    let clarityBonus := params.clarityScore * 0.2
    let TES := max 0 (min 1 (necessaryRatio - frictionPenalty + clarityBonus))
    round2 TES

/-- Parameter record of `calculateVTR`. -/
structure VTRParams where
  valueOffered : ℚ
  valueCaptured : ℚ
  skillsTransferred : ℚ
  autonomyPreserved : ℚ
deriving DecidableEq, Repr

/-- Embeds `calculateVTR`. -/
def calculateVTR (params : VTRParams) : ℚ :=
  if params.valueCaptured = 0 then 10.0
  else
    let baseRatio := params.valueOffered / params.valueCaptured
    let skillBonus := params.skillsTransferred / 10 * 0.5
    let autonomyBonus := params.autonomyPreserved * 0.5
    let VTR := baseRatio + skillBonus + autonomyBonus
    round2 VTR

-- ============================================================================
-- AURA protocol: validation (lib/aura/index.ts, validateAURA)
-- ============================================================================

/-- Embeds `validateAURA`. The three `warnings.push` branches become three
conditional singleton lists appended in source order; `valid` is the source
expression `warnings.length === 0`; `Date.now()` is the `now` parameter. -/
def validateAURA (metrics : MetricTriple) (thresholds : AURAThresholds)
    (now : Int) : AURAMetrics :=
  let warnings : List AURAWarning :=
    (if metrics.TES < thresholds.TES then
      [{ metric := MetricKind.TES,
         message := "Trust Entropy Score (" ++ numStr metrics.TES ++
           ") below threshold (" ++ numStr thresholds.TES ++ ")",
         suggestion := "Reduce unnecessary complexity. Focus on essential elements only.",
         severity := if metrics.TES < 0.5 then Severity.high else Severity.medium }]
     else []) ++
    (if metrics.VTR < thresholds.VTR then
      [{ metric := MetricKind.VTR,
         message := "Value-Transfer Ratio (" ++ numStr metrics.VTR ++
           ") below threshold (" ++ numStr thresholds.VTR ++ ")",
         suggestion := "Increase value offered. Teach skills rather than doing work.",
         severity := if metrics.VTR < 1.0 then Severity.high else Severity.medium }]
     else []) ++
    (if metrics.PAI < thresholds.PAI then
      [{ metric := MetricKind.PAI,
         message := "Purpose Alignment Index (" ++ numStr metrics.PAI ++
           ") below threshold (" ++ numStr thresholds.PAI ++ ")",
         suggestion := "Stay focused on stated purpose. Remove tangential elements.",
         severity := if metrics.PAI < 0.6 then Severity.high else Severity.medium }]
     else [])
  { TES := metrics.TES, VTR := metrics.VTR, PAI := metrics.PAI,
    valid := warnings.length == 0, warnings := warnings, timestamp := now }

-- ============================================================================
-- AURA protocol: vector inversion (lib/aura/index.ts)
-- ============================================================================

/-- Split of a character list at every occurrence of a separator character,
with the semantics of JavaScript `String.prototype.split` for a one-character
separator: the empty input gives one empty piece, adjacent separators give
empty pieces, and a trailing separator gives a trailing empty piece. -/
def splitChars (sep : Char) : List Char → List (List Char)
  | [] => [[]]
  | c :: cs =>
      let rest := splitChars sep cs
      if c = sep then [] :: rest
      else
        match rest with
        | [] => [[c]]
        | w :: ws => (c :: w) :: ws

/-- JavaScript `s.split(sep)` for a one-character separator. -/
def jsSplit (s : String) (sep : Char) : List String :=
  (splitChars sep s.data).map String.mk

/-- Embeds `extractIntent`: `request.split(' ').slice(0, 10)` joined by
single spaces, with an ellipsis appended when the split produced more than
ten pieces. -/
def extractIntent (request : String) : String :=
  let words := (jsSplit request ' ').take 10
  String.intercalate " " words ++
    (if 10 < (jsSplit request ' ').length then "..." else "")

/-- Embeds `vectorInversion`. The `validateAURA` call inside uses the default
`thresholds` argument, which is `AURA_PRESETS.moderate` in the source. -/
def vectorInversion (failedRequest : String) (failedMetric : MetricKind)
    (context : String) (now : Int) : VectorInversion :=
  let _ := context
  let intent := extractIntent failedRequest
  let failureReason :=
    match failedMetric with
    | MetricKind.TES => "Creates unnecessary complexity and friction"
    | MetricKind.VTR => "Creates dependency rather than empowerment"
    | MetricKind.PAI => "Diverges from stated purpose"
  let invertedSolution :=
    match failedMetric with
    | MetricKind.TES =>
        "Simplified approach: Focus on the 3 most essential elements of \"" ++
          intent ++ "\". Remove all auxiliary considerations until core is clear."
    | MetricKind.VTR =>
        "Empowering approach: Instead of doing this for you, here are the framework steps to \"" ++
          intent ++ "\" yourself. I will guide you through the first step, then you continue."
    | MetricKind.PAI =>
        "Realigned approach: Staying focused on \"" ++ intent ++
          "\" specifically. Everything else can wait until this core goal is achieved."
  let newMetrics := validateAURA
    { TES := if failedMetric = MetricKind.TES then 0.85 else 0.75,
      VTR := if failedMetric = MetricKind.VTR then 2.0 else 1.8,
      PAI := if failedMetric = MetricKind.PAI then 0.90 else 0.85 }
    (AURA_PRESETS AURAPreset.moderate) now
  { originalIntent := intent, failedMetric := failedMetric,
    failureReason := failureReason, invertedSolution := invertedSolution,
    newMetrics := newMetrics }

-- ============================================================================
-- AURA protocol: decision filter (lib/aura/index.ts, filterDecision)
-- ============================================================================

/-- One entry of the `failures` array built inside `filterDecision`. -/
structure FailureEntry where
  metric : MetricKind
  gap : ℚ
deriving DecidableEq, Repr

/-- Stable insertion step for the descending-by-gap sort. -/
def insertFail (x : FailureEntry) : List FailureEntry → List FailureEntry
  | [] => [x]
  | y :: ys => if x.gap ≥ y.gap then x :: y :: ys else y :: insertFail x ys

/-- Models `failures.sort((a, b) => b.gap - a.gap)`: a stable sort into
descending gap order, as guaranteed for `Array.prototype.sort`. -/
def sortFailures : List FailureEntry → List FailureEntry
  | [] => []
  | x :: xs => insertFail x (sortFailures xs)

/-- Embeds the `AURADecision` interface; the absent `inversion` key of the
passing branch is `none`. -/
structure AURADecision where
  action : String
  metrics : AURAMetrics
  passed : Bool
  inversion : Option VectorInversion
deriving DecidableEq, Repr

/-- Embeds `filterDecision`. The source indexes the sorted failure array at
`[0]` only in the invalid branch, where it is provably nonempty; the
unreachable empty case is totalized with `none`. -/
def filterDecision (action : String) (estimatedMetrics : MetricTriple)
    (thresholds : AURAThresholds) (now : Int) : AURADecision :=
  let metrics := validateAURA estimatedMetrics thresholds now
  if metrics.valid then
    { action := action, metrics := metrics, passed := true, inversion := none }
  else
    let failures : List FailureEntry :=
      (if metrics.TES < thresholds.TES then
        [{ metric := MetricKind.TES, gap := thresholds.TES - metrics.TES }] else []) ++
      (if metrics.VTR < thresholds.VTR then
        [{ metric := MetricKind.VTR, gap := thresholds.VTR - metrics.VTR }] else []) ++
      (if metrics.PAI < thresholds.PAI then
        [{ metric := MetricKind.PAI, gap := thresholds.PAI - metrics.PAI }] else [])
    match (sortFailures failures).head? with
    | some worstFailure =>
        { action := action, metrics := metrics, passed := false,
          inversion := some (vectorInversion action worstFailure.metric "" now) }
    | none =>
        { action := action, metrics := metrics, passed := false, inversion := none }

-- ============================================================================
-- Streak engine (lib/utils.ts)
-- ============================================================================

/-- Embeds `getDateKey`: the UTC calendar-day index of a millisecond
timestamp (see the modelling conventions above). -/
def getDateKey (timestamp : Int) : Int := timestamp.fdiv 86400000

/-- Stable insertion step for the descending numeric sort of integers. -/
def insertDesc (x : Int) : List Int → List Int
  | [] => [x]
  | y :: ys => if x ≥ y then x :: y :: ys else y :: insertDesc x ys

/-- Models the descending sorts in `calculateStreak`: the numeric sort
`(a, b) => b - a` of timestamps and the `sort().reverse()` of the distinct
ISO day keys (lexicographic on ISO keys equals numeric on day indices). -/
def sortDescInt (l : List Int) : List Int := l.foldr insertDesc []

/-- Embeds the current-streak loop of `calculateStreak`: walk the descending
distinct-day list, counting while each entry matches `checkDate`, which
moves back one day per match; stop at the first mismatch. -/
def streakWalk : Int → List Int → ℕ
  | _, [] => 0
  | checkDate, day :: rest =>
      if day = checkDate then streakWalk (checkDate - 1) rest + 1 else 0

/-- Embeds the longest-streak loop of `calculateStreak`: scan the ascending
day list, extending the running streak when the day gap is exactly one,
otherwise closing the run. -/
def longestAux : Int → ℕ → ℕ → List Int → ℕ
  | _, longest, tempStreak, [] => max longest tempStreak
  | prev, longest, tempStreak, day :: rest =>
      if day - prev = 1 then longestAux day longest (tempStreak + 1) rest
      else longestAux day (max longest tempStreak) 1 rest

/-- The longest-streak computation on the ascending distinct-day list:
`longest = 0`, `tempStreak = 1`, loop from the second element, and a final
`Math.max`. The source only reaches this with a nonempty list. -/
def longestOf : List Int → ℕ
  | [] => 1
  | first :: rest => longestAux first 0 1 rest

/-- Embeds the `StreakResult` interface. -/
structure StreakResult where
  current : ℕ
  longest : ℕ
  lastActive : Option Int
  isActiveToday : Bool
deriving DecidableEq, Repr

/-- Embeds `calculateStreak`. `Date.now()` is the `now` parameter. -/
def calculateStreak (now : Int) (timestamps : List Int) : StreakResult :=
  if timestamps.isEmpty then
    { current := 0, longest := 0, lastActive := none, isActiveToday := false }
  else
    let sorted := sortDescInt timestamps
    let dayArray := sortDescInt ((sorted.map getDateKey).dedup)
    let today := getDateKey now
    let yesterday := getDateKey (now - 86400000)
    let activeToday : Bool := dayArray.head? == some today
    let checkDate := if activeToday then today else yesterday
    let current : ℕ :=
      if dayArray.head? != some today && dayArray.head? != some yesterday then 0
      else streakWalk checkDate dayArray
    { current := current,
      longest := longestOf dayArray.reverse,
      lastActive := sorted.head?,
      isActiveToday := activeToday }

-- ============================================================================
-- Spec-side definitions (used to state refinement claims)
-- ============================================================================

/-- The value a metric kind selects from a metric triple. -/
def metricValue (m : MetricTriple) : MetricKind → ℚ
  | MetricKind.TES => m.TES
  | MetricKind.VTR => m.VTR
  | MetricKind.PAI => m.PAI

/-- The value a metric kind selects from a threshold triple. -/
def thresholdValue (t : AURAThresholds) : MetricKind → ℚ
  | MetricKind.TES => t.TES
  | MetricKind.VTR => t.VTR
  | MetricKind.PAI => t.PAI

/-- The gap `threshold - value` of a metric kind. -/
def gapOf (m : MetricTriple) (t : AURAThresholds) (k : MetricKind) : ℚ :=
  thresholdValue t k - metricValue m k

/-- A metric kind fails validation when its value is below its threshold. -/
def failsAt (m : MetricTriple) (t : AURAThresholds) (k : MetricKind) : Prop :=
  metricValue m k < thresholdValue t k

instance (m : MetricTriple) (t : AURAThresholds) (k : MetricKind) :
    Decidable (failsAt m t k) := by
  unfold failsAt
  infer_instance

/-- Position of a metric kind in the fixed evaluation order TES, VTR, PAI. -/
def kindIdx : MetricKind → ℕ
  | MetricKind.TES => 0
  | MetricKind.VTR => 1
  | MetricKind.PAI => 2

/-- Modelled from the spec: walk backward one calendar day at a time from a
start day, counting consecutive active days until the first inactive day. -/
def countConsecutive (days : Finset Int) (d : Int) : ℕ :=
  if h : d ∈ days then countConsecutive (days.erase d) (d - 1) + 1 else 0
termination_by days.card
decreasing_by exact Finset.card_erase_lt_of_mem h

/-- Modelled from the spec (section 4.1, step 5): if the most recent active
day is neither today nor yesterday the current streak is zero; otherwise it
is the count of consecutive active days walking backward from today (if
active today) or yesterday (otherwise). -/
def specCurrent (today : Int) (days : Finset Int) : ℕ :=
  if h : days.Nonempty then
    if days.max' h ≠ today ∧ days.max' h ≠ today - 1 then 0
    else countConsecutive days (if today ∈ days then today else today - 1)
  else 0

/-- Split of a character list at every character satisfying a predicate,
with the same piece conventions as `splitChars`. -/
def splitPredChars (p : Char → Bool) : List Char → List (List Char)
  | [] => [[]]
  | c :: cs =>
      let rest := splitPredChars p cs
      if p c then [] :: rest
      else
        match rest with
        | [] => [[c]]
        | w :: ws => (c :: w) :: ws

/-- Whitespace-separated tokens of a string: maximal nonempty runs of
non-whitespace characters. Used to state claim C9 as written. -/
def wsTokens (s : String) : List String :=
  ((splitPredChars Char.isWhitespace s.data).map String.mk).filter
    (fun t => t != "")

/-- The intent string claim C9 predicts: the first ten whitespace-separated
tokens, space-joined, with an ellipsis iff more than ten tokens exist. -/
def claimedIntent (s : String) : String :=
  String.intercalate " " ((wsTokens s).take 10) ++
    (if 10 < (wsTokens s).length then "..." else "")

/-- The intent string of the amended claim C9: the first ten
space-separated pieces of the request (splitting at every single space
character, so consecutive spaces yield empty pieces), joined by single
spaces, with an ellipsis marker iff the split produced more than ten
pieces. -/
def spacePiecesIntent (s : String) : String :=
  String.intercalate " " ((jsSplit s ' ').take 10) ++
    (if 10 < (jsSplit s ' ').length then "..." else "")

/-- The descending-by-one chain of day indices starting at `c`, of length
`k`: the days a current-streak walk of length `k` visits. -/
def chainD (c : Int) (k : ℕ) : List Int :=
  (List.range k).map (fun i : ℕ => c - (i : Int))

/-- The ascending-by-one chain of day indices starting at `a`, of length
`k`. -/
def chainA (a : Int) (k : ℕ) : List Int :=
  (List.range k).map (fun i : ℕ => a + (i : Int))


-- ============================================================================
-- AURA validation lemmas
-- ============================================================================

lemma validateAURA_valid_iff (m : MetricTriple) (t : AURAThresholds) (now : Int) :
    (validateAURA m t now).valid = true ↔
      t.TES ≤ m.TES ∧ t.VTR ≤ m.VTR ∧ t.PAI ≤ m.PAI := by
  simp only [validateAURA]
  split_ifs <;> simp_all [not_lt, le_of_lt]

lemma validateAURA_warnings_nil_iff (m : MetricTriple) (t : AURAThresholds) (now : Int) :
    (validateAURA m t now).warnings = [] ↔
      t.TES ≤ m.TES ∧ t.VTR ≤ m.VTR ∧ t.PAI ≤ m.PAI := by
  simp only [validateAURA]
  split_ifs <;> simp_all [not_lt, le_of_lt]

/-- Claim C1: `validateAURA` returns `valid = true` iff every metric meets
or exceeds its threshold, and `valid = true` iff the warnings list is
empty. -/
theorem validateAURA_valid_characterization (m : MetricTriple)
    (t : AURAThresholds) (now : Int) :
    ((validateAURA m t now).valid = true ↔
      t.TES ≤ m.TES ∧ t.VTR ≤ m.VTR ∧ t.PAI ≤ m.PAI) ∧
    ((validateAURA m t now).valid = true ↔
      (validateAURA m t now).warnings = []) := by
  refine ⟨validateAURA_valid_iff m t now, ?_⟩
  rw [validateAURA_valid_iff, validateAURA_warnings_nil_iff]

/-- Claim C6: the division-by-zero guards of the metric calculators fire
before any arithmetic: `calculateVTR` returns exactly 10.0 whenever
`valueCaptured = 0`, and `calculateTES` returns exactly 1.0 whenever
`totalElements = 0`. -/
theorem metricCalculators_zero_guards (pV : VTRParams) (pT : TESParams) :
    (pV.valueCaptured = 0 → calculateVTR pV = 10) ∧
    (pT.totalElements = 0 → calculateTES pT = 1) := by
  constructor <;> intro h <;> simp [calculateVTR, calculateTES, h] <;> norm_num

theorem metricCalculators_zero_guards_witness :
    ((⟨3, 0, 5, 1⟩ : VTRParams).valueCaptured = 0 ∧
      calculateVTR ⟨3, 0, 5, 1⟩ = 10) ∧
    ((⟨0, 2, 1, 0⟩ : TESParams).totalElements = 0 ∧
      calculateTES ⟨0, 2, 1, 0⟩ = 1) :=
  ⟨⟨rfl, (metricCalculators_zero_guards ⟨3, 0, 5, 1⟩ ⟨0, 2, 1, 0⟩).1 rfl⟩,
   ⟨rfl, (metricCalculators_zero_guards ⟨3, 0, 5, 1⟩ ⟨0, 2, 1, 0⟩).2 rfl⟩⟩

/-- Claim C5: revalidating the metric values of the `newMetrics` record
produced by `vectorInversion` against the thresholds used to produce them
(the moderate preset, the default of the inner `validateAURA` call)
reproduces the same `valid` flag, at any evaluation time: the flag depends
only on the metric values and the thresholds. -/
theorem vectorInversion_roundtrip_valid (r : String) (fm : MetricKind)
    (ctx : String) (now now2 : Int) :
    (validateAURA
        { TES := (vectorInversion r fm ctx now).newMetrics.TES,
          VTR := (vectorInversion r fm ctx now).newMetrics.VTR,
          PAI := (vectorInversion r fm ctx now).newMetrics.PAI }
        (AURA_PRESETS AURAPreset.moderate) now2).valid =
      (vectorInversion r fm ctx now).newMetrics.valid := by
  cases fm <;> rfl

/-- Claim C10: the simulated recovery values hardcoded by `vectorInversion`
always pass the moderate preset they are validated against, so `newMetrics`
always carries `valid = true` and no warnings. -/
theorem vectorInversion_newMetrics_always_valid (r : String) (fm : MetricKind)
    (ctx : String) (now : Int) :
    (vectorInversion r fm ctx now).newMetrics.valid = true ∧
    (vectorInversion r fm ctx now).newMetrics.warnings = [] := by
  cases fm <;> constructor <;>
    norm_num [vectorInversion, validateAURA, AURA_PRESETS] <;>
    simp only [reduceCtorEq, if_false, ite_false] <;> norm_num

/-- Claim C8: the warnings of `validateAURA` carry at most one entry per
metric and appear in the fixed evaluation order TES, VTR, PAI: the metric
trace of the warnings list is always a sublist of `[TES, VTR, PAI]`. -/
theorem validateAURA_warnings_ordered (m : MetricTriple) (t : AURAThresholds)
    (now : Int) :
    ((validateAURA m t now).warnings.map (fun w => w.metric)).Sublist
      [MetricKind.TES, MetricKind.VTR, MetricKind.PAI] ∧
    (validateAURA m t now).warnings.length ≤ 3 := by
  simp only [validateAURA]
  split_ifs <;> simp

/-- Claim C9 as stated fails on the code: `extractIntent` splits on the
space character only, not on general whitespace. For an eleven-token
tab-separated request the code keeps the whole request unchanged with no
ellipsis, while the claim predicts the first ten whitespace tokens with an
ellipsis appended. -/
theorem extractIntent_whitespace_counterexample :
    (vectorInversion "a\ta\ta\ta\ta\ta\ta\ta\ta\ta\ta" MetricKind.TES "" 0).originalIntent ≠
      claimedIntent "a\ta\ta\ta\ta\ta\ta\ta\ta\ta\ta" := by
  decide

/-- Claim C9, amended: for every request, `vectorInversion` extracts as
`originalIntent` the first ten space-separated pieces of the request,
followed by an ellipsis marker iff the split produced more than ten
pieces. -/
theorem vectorInversion_intent_space_pieces (r : String) (fm : MetricKind)
    (ctx : String) (now : Int) :
    (vectorInversion r fm ctx now).originalIntent = spacePiecesIntent r := by
  cases fm <;> rfl

lemma validateAURA_TES (m : MetricTriple) (t : AURAThresholds) (now : Int) :
    (validateAURA m t now).TES = m.TES := rfl

lemma validateAURA_VTR (m : MetricTriple) (t : AURAThresholds) (now : Int) :
    (validateAURA m t now).VTR = m.VTR := rfl

lemma validateAURA_PAI (m : MetricTriple) (t : AURAThresholds) (now : Int) :
    (validateAURA m t now).PAI = m.PAI := rfl

/-- Claim C2: when validation passes, `filterDecision` returns the action
with `passed = true` and no inversion; when validation fails, it returns
`passed = false` with an inversion generated for a failing metric whose gap
`threshold - value` is maximal among the failing metrics, ties between
equal gaps resolved toward the earlier metric in the evaluation order TES,
VTR, PAI. -/
theorem filterDecision_worst_gap (action : String) (m : MetricTriple)
    (t : AURAThresholds) (now : Int) :
    ((validateAURA m t now).valid = true →
      filterDecision action m t now =
        { action := action, metrics := validateAURA m t now,
          passed := true, inversion := none }) ∧
    ((validateAURA m t now).valid = false →
      ∃ k, failsAt m t k ∧
        (∀ j, failsAt m t j → gapOf m t j ≤ gapOf m t k) ∧
        (∀ j, failsAt m t j → gapOf m t j = gapOf m t k → kindIdx k ≤ kindIdx j) ∧
        filterDecision action m t now =
          { action := action, metrics := validateAURA m t now, passed := false,
            inversion := some (vectorInversion action k "" now) }) := by
  constructor
  · intro hvalid
    simp [filterDecision, hvalid]
  · intro hvalid
    have hfail : ¬ (t.TES ≤ m.TES ∧ t.VTR ≤ m.VTR ∧ t.PAI ≤ m.PAI) := by
      intro hc
      rw [(validateAURA_valid_iff m t now).mpr hc] at hvalid
      simp at hvalid
    by_cases hT : m.TES < t.TES <;> by_cases hV : m.VTR < t.VTR <;>
      by_cases hP : m.PAI < t.PAI
    · -- all three fail
      by_cases c1 : t.VTR - m.VTR ≥ t.PAI - m.PAI
      · by_cases c2 : t.TES - m.TES ≥ t.VTR - m.VTR
        · refine ⟨MetricKind.TES,
            by simpa [failsAt, metricValue, thresholdValue] using hT, ?_, ?_, ?_⟩
          · intro j hj
            cases j <;>
              simp only [failsAt, gapOf, metricValue, thresholdValue] at hj ⊢ <;> linarith
          · intro _ _ _
            exact Nat.zero_le _
          · simp [filterDecision, hvalid, hT, hV, hP, c1, c2, sortFailures, insertFail,
              validateAURA_TES, validateAURA_VTR, validateAURA_PAI]
        · refine ⟨MetricKind.VTR,
            by simpa [failsAt, metricValue, thresholdValue] using hV, ?_, ?_, ?_⟩
          · intro j hj
            cases j <;>
              simp only [failsAt, gapOf, metricValue, thresholdValue] at hj ⊢ <;> linarith
          · intro j hj heq
            cases j <;>
              simp only [failsAt, gapOf, metricValue, thresholdValue, kindIdx] at hj heq ⊢ <;>
              first
              | omega
              | (exfalso; linarith)
          · simp [filterDecision, hvalid, hT, hV, hP, c1, c2, sortFailures, insertFail,
              validateAURA_TES, validateAURA_VTR, validateAURA_PAI]
      · by_cases c4 : t.TES - m.TES ≥ t.PAI - m.PAI
        · refine ⟨MetricKind.TES,
            by simpa [failsAt, metricValue, thresholdValue] using hT, ?_, ?_, ?_⟩
          · intro j hj
            cases j <;>
              simp only [failsAt, gapOf, metricValue, thresholdValue] at hj ⊢ <;> linarith
          · intro _ _ _
            exact Nat.zero_le _
          · simp [filterDecision, hvalid, hT, hV, hP, c1, c4, sortFailures, insertFail,
              validateAURA_TES, validateAURA_VTR, validateAURA_PAI]
        · refine ⟨MetricKind.PAI,
            by simpa [failsAt, metricValue, thresholdValue] using hP, ?_, ?_, ?_⟩
          · intro j hj
            cases j <;>
              simp only [failsAt, gapOf, metricValue, thresholdValue] at hj ⊢ <;> linarith
          · intro j hj heq
            cases j <;>
              simp only [failsAt, gapOf, metricValue, thresholdValue, kindIdx] at hj heq ⊢ <;>
              first
              | omega
              | (exfalso; linarith)
          · simp [filterDecision, hvalid, hT, hV, hP, c1, c4, sortFailures, insertFail,
              validateAURA_TES, validateAURA_VTR, validateAURA_PAI]
    · -- TES and VTR fail
      by_cases c : t.TES - m.TES ≥ t.VTR - m.VTR
      · refine ⟨MetricKind.TES,
          by simpa [failsAt, metricValue, thresholdValue] using hT, ?_, ?_, ?_⟩
        · intro j hj
          cases j <;>
            simp only [failsAt, gapOf, metricValue, thresholdValue] at hj ⊢ <;> linarith
        · intro _ _ _
          exact Nat.zero_le _
        · simp [filterDecision, hvalid, hT, hV, hP, c, sortFailures, insertFail,
            validateAURA_TES, validateAURA_VTR, validateAURA_PAI]
      · refine ⟨MetricKind.VTR,
          by simpa [failsAt, metricValue, thresholdValue] using hV, ?_, ?_, ?_⟩
        · intro j hj
          cases j <;>
            simp only [failsAt, gapOf, metricValue, thresholdValue] at hj ⊢ <;> linarith
        · intro j hj heq
          cases j <;>
            simp only [failsAt, gapOf, metricValue, thresholdValue, kindIdx] at hj heq ⊢ <;>
            first
            | omega
            | (exfalso; linarith)
        · simp [filterDecision, hvalid, hT, hV, hP, c, sortFailures, insertFail,
            validateAURA_TES, validateAURA_VTR, validateAURA_PAI]
    · -- TES and PAI fail
      by_cases c : t.TES - m.TES ≥ t.PAI - m.PAI
      · refine ⟨MetricKind.TES,
          by simpa [failsAt, metricValue, thresholdValue] using hT, ?_, ?_, ?_⟩
        · intro j hj
          cases j <;>
            simp only [failsAt, gapOf, metricValue, thresholdValue] at hj ⊢ <;> linarith
        · intro _ _ _
          exact Nat.zero_le _
        · simp [filterDecision, hvalid, hT, hV, hP, c, sortFailures, insertFail,
            validateAURA_TES, validateAURA_VTR, validateAURA_PAI]
      · refine ⟨MetricKind.PAI,
          by simpa [failsAt, metricValue, thresholdValue] using hP, ?_, ?_, ?_⟩
        · intro j hj
          cases j <;>
            simp only [failsAt, gapOf, metricValue, thresholdValue] at hj ⊢ <;> linarith
        · intro j hj heq
          cases j <;>
            simp only [failsAt, gapOf, metricValue, thresholdValue, kindIdx] at hj heq ⊢ <;>
            first
            | omega
            | (exfalso; linarith)
        · simp [filterDecision, hvalid, hT, hV, hP, c, sortFailures, insertFail,
            validateAURA_TES, validateAURA_VTR, validateAURA_PAI]
    · -- only TES fails
      refine ⟨MetricKind.TES,
        by simpa [failsAt, metricValue, thresholdValue] using hT, ?_, ?_, ?_⟩
      · intro j hj
        cases j <;>
          simp only [failsAt, gapOf, metricValue, thresholdValue] at hj ⊢ <;> linarith
      · intro _ _ _
        exact Nat.zero_le _
      · simp [filterDecision, hvalid, hT, hV, hP, sortFailures, insertFail,
          validateAURA_TES, validateAURA_VTR, validateAURA_PAI]
    · -- VTR and PAI fail
      by_cases c : t.VTR - m.VTR ≥ t.PAI - m.PAI
      · refine ⟨MetricKind.VTR,
          by simpa [failsAt, metricValue, thresholdValue] using hV, ?_, ?_, ?_⟩
        · intro j hj
          cases j <;>
            simp only [failsAt, gapOf, metricValue, thresholdValue] at hj ⊢ <;> linarith
        · intro j hj heq
          cases j <;>
            simp only [failsAt, gapOf, metricValue, thresholdValue, kindIdx] at hj heq ⊢ <;>
            first
            | omega
            | (exfalso; linarith)
        · simp [filterDecision, hvalid, hT, hV, hP, c, sortFailures, insertFail,
            validateAURA_TES, validateAURA_VTR, validateAURA_PAI]
      · refine ⟨MetricKind.PAI,
          by simpa [failsAt, metricValue, thresholdValue] using hP, ?_, ?_, ?_⟩
        · intro j hj
          cases j <;>
            simp only [failsAt, gapOf, metricValue, thresholdValue] at hj ⊢ <;> linarith
        · intro j hj heq
          cases j <;>
            simp only [failsAt, gapOf, metricValue, thresholdValue, kindIdx] at hj heq ⊢ <;>
            first
            | omega
            | (exfalso; linarith)
        · simp [filterDecision, hvalid, hT, hV, hP, c, sortFailures, insertFail,
            validateAURA_TES, validateAURA_VTR, validateAURA_PAI]
    · -- only VTR fails
      refine ⟨MetricKind.VTR,
        by simpa [failsAt, metricValue, thresholdValue] using hV, ?_, ?_, ?_⟩
      · intro j hj
        cases j <;>
          simp only [failsAt, gapOf, metricValue, thresholdValue] at hj ⊢ <;> linarith
      · intro j hj heq
        cases j <;>
          simp only [failsAt, gapOf, metricValue, thresholdValue, kindIdx] at hj heq ⊢ <;>
          first
          | omega
          | (exfalso; linarith)
      · simp [filterDecision, hvalid, hT, hV, hP, sortFailures, insertFail,
          validateAURA_TES, validateAURA_VTR, validateAURA_PAI]
    · -- only PAI fails
      refine ⟨MetricKind.PAI,
        by simpa [failsAt, metricValue, thresholdValue] using hP, ?_, ?_, ?_⟩
      · intro j hj
        cases j <;>
          simp only [failsAt, gapOf, metricValue, thresholdValue] at hj ⊢ <;> linarith
      · intro j hj heq
        cases j <;>
          simp only [failsAt, gapOf, metricValue, thresholdValue, kindIdx] at hj heq ⊢ <;>
          first
          | omega
          | (exfalso; linarith)
      · simp [filterDecision, hvalid, hT, hV, hP, sortFailures, insertFail,
          validateAURA_TES, validateAURA_VTR, validateAURA_PAI]
    · exact absurd ⟨not_lt.mp hT, not_lt.mp hV, not_lt.mp hP⟩ hfail

theorem filterDecision_worst_gap_witness :
    ((validateAURA { TES := 0.9, VTR := 2.0, PAI := 0.9 }
        (AURA_PRESETS AURAPreset.moderate) 0).valid = true ∧
      filterDecision "act" { TES := 0.9, VTR := 2.0, PAI := 0.9 }
          (AURA_PRESETS AURAPreset.moderate) 0 =
        { action := "act",
          metrics := validateAURA { TES := 0.9, VTR := 2.0, PAI := 0.9 }
            (AURA_PRESETS AURAPreset.moderate) 0,
          passed := true, inversion := none }) ∧
    ((validateAURA { TES := 0.5, VTR := 0.5, PAI := 0.5 }
        (AURA_PRESETS AURAPreset.moderate) 0).valid = false ∧
      ∃ k, failsAt { TES := 0.5, VTR := 0.5, PAI := 0.5 }
          (AURA_PRESETS AURAPreset.moderate) k ∧
        (∀ j, failsAt { TES := 0.5, VTR := 0.5, PAI := 0.5 }
            (AURA_PRESETS AURAPreset.moderate) j →
          gapOf { TES := 0.5, VTR := 0.5, PAI := 0.5 }
              (AURA_PRESETS AURAPreset.moderate) j ≤
            gapOf { TES := 0.5, VTR := 0.5, PAI := 0.5 }
              (AURA_PRESETS AURAPreset.moderate) k) ∧
        (∀ j, failsAt { TES := 0.5, VTR := 0.5, PAI := 0.5 }
            (AURA_PRESETS AURAPreset.moderate) j →
          gapOf { TES := 0.5, VTR := 0.5, PAI := 0.5 }
              (AURA_PRESETS AURAPreset.moderate) j =
            gapOf { TES := 0.5, VTR := 0.5, PAI := 0.5 }
              (AURA_PRESETS AURAPreset.moderate) k →
          kindIdx k ≤ kindIdx j) ∧
        filterDecision "act" { TES := 0.5, VTR := 0.5, PAI := 0.5 }
            (AURA_PRESETS AURAPreset.moderate) 0 =
          { action := "act",
            metrics := validateAURA { TES := 0.5, VTR := 0.5, PAI := 0.5 }
              (AURA_PRESETS AURAPreset.moderate) 0,
            passed := false,
            inversion := some (vectorInversion "act" k "" 0) }) := by
  have h1 : (validateAURA { TES := 0.9, VTR := 2.0, PAI := 0.9 }
      (AURA_PRESETS AURAPreset.moderate) 0).valid = true := by
    norm_num [validateAURA, AURA_PRESETS]
  have h2 : (validateAURA { TES := 0.5, VTR := 0.5, PAI := 0.5 }
      (AURA_PRESETS AURAPreset.moderate) 0).valid = false := by
    norm_num [validateAURA, AURA_PRESETS]
  exact ⟨⟨h1, (filterDecision_worst_gap "act"
      { TES := 0.9, VTR := 2.0, PAI := 0.9 }
      (AURA_PRESETS AURAPreset.moderate) 0).1 h1⟩,
    ⟨h2, (filterDecision_worst_gap "act"
      { TES := 0.5, VTR := 0.5, PAI := 0.5 }
      (AURA_PRESETS AURAPreset.moderate) 0).2 h2⟩⟩

-- ============================================================================
-- Sorting lemmas for the streak engine
-- ============================================================================

lemma insertDesc_perm (x : Int) (l : List Int) :
    List.Perm (insertDesc x l) (x :: l) := by
  induction l with
  | nil => exact List.Perm.refl _
  | cons y ys ih =>
    simp only [insertDesc]
    split_ifs
    · exact List.Perm.refl _
    · exact (ih.cons y).trans (List.Perm.swap x y ys)

lemma sortDescInt_perm (l : List Int) : List.Perm (sortDescInt l) l := by
  induction l with
  | nil => exact List.Perm.refl _
  | cons x xs ih =>
    exact (insertDesc_perm x (sortDescInt xs)).trans (ih.cons x)

lemma insertDesc_sorted {x : Int} {l : List Int} (h : l.Pairwise (· ≥ ·)) :
    (insertDesc x l).Pairwise (· ≥ ·) := by
  induction l with
  | nil => simp [insertDesc]
  | cons y ys ih =>
    have hcons := List.pairwise_cons.mp h
    simp only [insertDesc]
    split_ifs with hxy
    · refine List.Pairwise.cons ?_ h
      intro a ha
      rcases List.mem_cons.mp ha with rfl | ha
      · exact hxy
      · exact le_trans (hcons.1 a ha) hxy
    · refine List.pairwise_cons.mpr ⟨?_, ih hcons.2⟩
      intro a ha
      rcases List.mem_cons.mp ((insertDesc_perm x ys).mem_iff.mp ha) with rfl | ha2
      · exact le_of_not_le hxy
      · exact hcons.1 a ha2

lemma sortDescInt_sorted (l : List Int) : (sortDescInt l).Pairwise (· ≥ ·) := by
  induction l with
  | nil => simp [sortDescInt]
  | cons x xs ih => exact insertDesc_sorted ih

lemma sortDescInt_pairwise_gt {l : List Int} (h : l.Nodup) :
    (sortDescInt l).Pairwise (· > ·) := by
  have hs := sortDescInt_sorted l
  have hn : (sortDescInt l).Nodup := (sortDescInt_perm l).nodup_iff.mpr h
  exact (hs.and hn).imp (fun hab => lt_of_le_of_ne hab.1 hab.2.symm)

lemma pairwise_ge_head_max {l : List Int} {c : Int} (h : l.Pairwise (· ≥ ·))
    (hc : l.head? = some c) : ∀ a ∈ l, a ≤ c := by
  cases l with
  | nil => cases hc
  | cons y ys =>
    obtain rfl : y = c := by simpa using hc
    intro a ha
    rcases List.mem_cons.mp ha with rfl | ha
    · exact le_refl a
    · exact List.rel_of_pairwise_cons h ha

-- ============================================================================
-- The current-streak walk computes the spec count
-- ============================================================================

lemma streakWalk_eq_countConsecutive : ∀ (R : List Int) (c : Int),
    R.Pairwise (· > ·) → (∀ a ∈ R, a ≤ c) →
    streakWalk c R = countConsecutive R.toFinset c := by
  intro R
  induction R with
  | nil =>
    intro c _ _
    rw [countConsecutive]
    simp [streakWalk]
  | cons d ds ih =>
    intro c hp hle
    have hd := List.pairwise_cons.mp hp
    by_cases hdc : d = c
    · subst hdc
      simp only [streakWalk, if_pos rfl]
      rw [countConsecutive]
      have hmem : d ∈ (d :: ds).toFinset := by simp
      rw [dif_pos hmem]
      have hnotm : d ∉ ds.toFinset := by
        simp only [List.mem_toFinset]
        intro hmm
        exact absurd (hd.1 d hmm) (lt_irrefl d)
      have herase : (d :: ds).toFinset.erase d = ds.toFinset := by
        simp only [List.toFinset_cons]
        exact Finset.erase_insert hnotm
      rw [herase, ih (d - 1) hd.2 (fun a ha => by have := hd.1 a ha; omega)]
      simp
    · simp only [streakWalk, if_neg hdc]
      rw [countConsecutive]
      have hno : c ∉ (d :: ds).toFinset := by
        simp only [List.toFinset_cons, Finset.mem_insert, List.mem_toFinset]
        rintro (rfl | hmm)
        · exact hdc rfl
        · have h1 := hd.1 c hmm
          have h2 := hle d (List.mem_cons_self d ds)
          omega
      rw [dif_neg hno]

-- ============================================================================
-- Chain lemmas: the days visited by a streak walk form a consecutive run
-- ============================================================================

lemma chainD_succ (c : Int) (k : ℕ) : chainD c (k + 1) = c :: chainD (c - 1) k := by
  simp only [chainD, List.range_succ_eq_map, List.map_cons, List.map_map, Nat.cast_zero,
    sub_zero]
  congr 1
  apply List.map_congr_left
  intro i _
  simp only [Function.comp_apply, Nat.cast_succ]
  ring

lemma chainA_succ_left (a : Int) (k : ℕ) : chainA a (k + 1) = a :: chainA (a + 1) k := by
  simp only [chainA, List.range_succ_eq_map, List.map_cons, List.map_map, Nat.cast_zero,
    add_zero]
  congr 1
  apply List.map_congr_left
  intro i _
  simp only [Function.comp_apply, Nat.cast_succ]
  ring

lemma chainA_succ_right (a : Int) (k : ℕ) :
    chainA a (k + 1) = chainA a k ++ [a + (k : Int)] := by
  simp [chainA, List.range_succ]

lemma chainD_reverse (k : ℕ) : ∀ c : Int,
    (chainD c (k + 1)).reverse = chainA (c - (k : Int)) (k + 1) := by
  induction k with
  | zero =>
    intro c
    have h1 : List.range 1 = [0] := rfl
    simp [chainD, chainA, h1]
  | succ k ih =>
    intro c
    have h1 : c - 1 - (k : Int) = c - ((k + 1 : ℕ) : Int) := by push_cast; ring
    have h2 : c - ((k + 1 : ℕ) : Int) + ((k + 1 : ℕ) : Int) = c := by ring
    rw [chainD_succ, List.reverse_cons, ih (c - 1), h1]
    conv_rhs => rw [chainA_succ_right, h2]

lemma streakWalk_decomp : ∀ (R : List Int) (c : Int),
    ∃ rest, R = chainD c (streakWalk c R) ++ rest := by
  intro R
  induction R with
  | nil => exact fun c => ⟨[], by simp [streakWalk, chainD]⟩
  | cons d ds ih =>
    intro c
    by_cases hdc : d = c
    · subst hdc
      obtain ⟨rest, hrest⟩ := ih (d - 1)
      refine ⟨rest, ?_⟩
      simp only [streakWalk, eq_self_iff_true, if_true]
      rw [chainD_succ, List.cons_append]
      exact congrArg (List.cons d) hrest
    · exact ⟨d :: ds, by simp [streakWalk, hdc, chainD]⟩

-- ============================================================================
-- The longest-streak scan dominates any consecutive run
-- ============================================================================

lemma longestAux_chain : ∀ (k : ℕ) (a : Int) (best temp : ℕ),
    temp + k ≤ longestAux (a - 1) best temp (chainA a k) := by
  intro k
  induction k with
  | zero =>
    intro a best temp
    have : chainA a 0 = [] := rfl
    rw [this]
    simp only [longestAux, Nat.add_zero]
    exact le_max_right _ _
  | succ k ih =>
    intro a best temp
    rw [chainA_succ_left]
    simp only [longestAux]
    rw [if_pos (by ring : a - (a - 1) = 1)]
    have h := ih (a + 1) best (temp + 1)
    rw [show a + 1 - 1 = a from by ring] at h
    linarith

lemma longestAux_append_chain : ∀ (pre : List Int) (prev : Int) (best temp : ℕ)
    (a : Int) (k : ℕ), 1 ≤ temp →
    k ≤ longestAux prev best temp (pre ++ chainA a k) := by
  intro pre
  induction pre with
  | nil =>
    intro prev best temp a k htemp
    cases k with
    | zero => exact Nat.zero_le _
    | succ k =>
      rw [List.nil_append, chainA_succ_left]
      simp only [longestAux]
      split_ifs with hd
      · have h := longestAux_chain k (a + 1) best (temp + 1)
        rw [show a + 1 - 1 = a from by ring] at h
        linarith
      · have h := longestAux_chain k (a + 1) (max best temp) 1
        rw [show a + 1 - 1 = a from by ring] at h
        linarith
  | cons p pre ih =>
    intro prev best temp a k htemp
    rw [List.cons_append]
    simp only [longestAux]
    split_ifs with hd
    · exact ih p best (temp + 1) a k (by omega)
    · exact ih p (max best temp) 1 a k (by omega)

lemma streakWalk_le_longestOf (R : List Int) (c : Int) :
    streakWalk c R ≤ longestOf R.reverse := by
  rcases Nat.eq_zero_or_pos (streakWalk c R) with h0 | hpos
  · rw [h0]
    exact Nat.zero_le _
  · obtain ⟨k, hk⟩ : ∃ k, streakWalk c R = k + 1 :=
      ⟨streakWalk c R - 1, by omega⟩
    obtain ⟨rest, hrest⟩ := streakWalk_decomp R c
    rw [hk] at hrest
    rw [hk, hrest, List.reverse_append, chainD_reverse k c]
    cases hrr : rest.reverse with
    | nil =>
      rw [List.nil_append, chainA_succ_left]
      simp only [longestOf]
      have h := longestAux_chain k (c - (k : Int) + 1) 0 1
      rw [show c - (k : Int) + 1 - 1 = c - (k : Int) from by ring] at h
      linarith
    | cons h t =>
      rw [List.cons_append]
      simp only [longestOf]
      exact longestAux_append_chain (t) h 0 1 (c - (k : Int)) (k + 1) (by omega)

/-- Claim C3: for every timestamp list (the empty list included) and every
current time, the streak result satisfies `longest ≥ current ≥ 0`. -/
theorem calculateStreak_longest_ge_current (now : Int) (timestamps : List Int) :
    0 ≤ (calculateStreak now timestamps).current ∧
    (calculateStreak now timestamps).current ≤ (calculateStreak now timestamps).longest := by
  refine ⟨Nat.zero_le _, ?_⟩
  cases hemp : timestamps.isEmpty with
  | true => simp [calculateStreak, hemp]
  | false =>
    simp only [calculateStreak, hemp, Bool.false_eq_true, if_false]
    split_ifs <;>
      first
      | exact Nat.zero_le _
      | exact streakWalk_le_longestOf _ _

-- ============================================================================
-- Claim C4: the current streak matches the spec description
-- ============================================================================

lemma getDateKey_sub_day (now : Int) :
    getDateKey (now - 86400000) = getDateKey now - 1 := by
  unfold getDateKey
  rw [Int.fdiv_eq_ediv _ (by norm_num), Int.fdiv_eq_ediv _ (by norm_num),
    show now - 86400000 = now + (-1) * 86400000 from by ring,
    Int.add_mul_ediv_right _ _ (by norm_num : (86400000 : Int) ≠ 0)]
  ring

lemma calculateStreak_current_eq (now : Int) (ts : List Int)
    (h : ts.isEmpty = false) :
    (calculateStreak now ts).current =
      if (sortDescInt (((sortDescInt ts).map getDateKey).dedup)).head? != some (getDateKey now) &&
          (sortDescInt (((sortDescInt ts).map getDateKey).dedup)).head? !=
            some (getDateKey (now - 86400000)) then 0
      else
        streakWalk
          (if (sortDescInt (((sortDescInt ts).map getDateKey).dedup)).head? ==
              some (getDateKey now)
            then getDateKey now else getDateKey (now - 86400000))
          (sortDescInt (((sortDescInt ts).map getDateKey).dedup)) := by
  simp only [calculateStreak, h, Bool.false_eq_true, if_false]

/-- Claim C4: for a nonempty timestamp list, the current streak is zero when
the most recent active day is neither today nor yesterday, and otherwise
equals the count of consecutive active days walking backward from today (if
active today) or yesterday (otherwise), as `specCurrent` prescribes. -/
theorem calculateStreak_current_spec (now : Int) (ts : List Int) (h : ts ≠ []) :
    (calculateStreak now ts).current =
      specCurrent (getDateKey now) ((ts.map getDateKey).toFinset) := by
  have hemp : ts.isEmpty = false := by
    cases ts with
    | nil => exact absurd rfl h
    | cons a l => rfl
  rw [calculateStreak_current_eq now ts hemp, getDateKey_sub_day now]
  set D := sortDescInt (((sortDescInt ts).map getDateKey).dedup) with hD
  have hmem : ∀ a, a ∈ D ↔ a ∈ ts.map getDateKey := by
    intro a
    rw [hD, (sortDescInt_perm _).mem_iff, List.mem_dedup,
      ((sortDescInt_perm ts).map getDateKey).mem_iff]
  have htf : D.toFinset = (ts.map getDateKey).toFinset := List.toFinset.ext hmem
  have hgt : D.Pairwise (· > ·) := by
    rw [hD]
    exact sortDescInt_pairwise_gt (List.nodup_dedup _)
  have hge : D.Pairwise (· ≥ ·) := by
    rw [hD]
    exact sortDescInt_sorted _
  have hne : D ≠ [] := by
    cases ts with
    | nil => exact absurd rfl h
    | cons a l =>
      intro hnil
      have hx : getDateKey a ∈ D := (hmem _).mpr (by simp)
      rw [hnil] at hx
      cases hx
  obtain ⟨m, rest, hcons⟩ := List.exists_cons_of_ne_nil hne
  have hhead : D.head? = some m := by rw [hcons]; rfl
  have hmax : ∀ a ∈ D, a ≤ m := pairwise_ge_head_max hge hhead
  have hmm : m ∈ D := by rw [hcons]; exact List.mem_cons_self _ _
  have hneF : ((ts.map getDateKey).toFinset).Nonempty :=
    ⟨m, by rw [← htf]; exact List.mem_toFinset.mpr hmm⟩
  have hmaxF : (ts.map getDateKey).toFinset.max' hneF = m := by
    apply le_antisymm
    · exact Finset.max'_le _ _ _
        (fun a ha => hmax a (List.mem_toFinset.mp (htf ▸ ha)))
    · exact Finset.le_max' _ _ (by rw [← htf]; exact List.mem_toFinset.mpr hmm)
  rw [hhead]
  simp only [specCurrent]
  rw [dif_pos hneF, hmaxF]
  by_cases h1 : m = getDateKey now
  · have htoday : getDateKey now ∈ (ts.map getDateKey).toFinset := by
      rw [← htf]
      exact List.mem_toFinset.mpr (h1 ▸ hmm)
    rw [h1] at hmax ⊢
    simp only [bne_self_eq_false, Bool.false_and, Bool.false_eq_true, if_false,
      beq_self_eq_true, eq_self_iff_true, if_true]
    rw [if_neg (by simp), if_pos htoday,
      streakWalk_eq_countConsecutive D _ hgt hmax, htf]
  · by_cases h2 : m = getDateKey now - 1
    · have hb1 : (some m != some (getDateKey now)) = true := by simp [h1]
      have hb2 : (some m != some (getDateKey now - 1)) = false := by simp [h2]
      have hb3 : (some m == some (getDateKey now)) = false := by simp [h1]
      simp only [hb1, hb2, Bool.true_and, Bool.false_eq_true, if_false, hb3]
      have hnot : getDateKey now ∉ (ts.map getDateKey).toFinset := by
        intro hmem'
        have hle : getDateKey now ≤ m := hmax _ (List.mem_toFinset.mp (htf ▸ hmem'))
        omega
      rw [if_neg (by simp [h2]), if_neg hnot,
        streakWalk_eq_countConsecutive D _ hgt (by rw [← h2]; exact hmax), htf]
    · have hb1 : (some m != some (getDateKey now)) = true := by simp [h1]
      have hb2 : (some m != some (getDateKey now - 1)) = true := by simp [h2]
      simp only [hb1, hb2, Bool.true_and, if_true]
      rw [if_pos ⟨h1, h2⟩]

theorem calculateStreak_current_spec_witness :
    ([86400005] : List Int) ≠ [] ∧
    (calculateStreak 172800000 [86400005]).current =
      specCurrent (getDateKey 172800000)
        ((([86400005] : List Int).map getDateKey).toFinset) :=
  ⟨by decide, calculateStreak_current_spec 172800000 [86400005] (by decide)⟩

-- ============================================================================
-- Claim C7: duplicate calendar days never change streak lengths
-- ============================================================================

lemma mem_dayArray (ts : List Int) (a : Int) :
    a ∈ sortDescInt (((sortDescInt ts).map getDateKey).dedup) ↔
      a ∈ ts.map getDateKey := by
  rw [(sortDescInt_perm _).mem_iff, List.mem_dedup,
    ((sortDescInt_perm ts).map getDateKey).mem_iff]

lemma calculateStreak_longest_eq (now : Int) (ts : List Int)
    (h : ts.isEmpty = false) :
    (calculateStreak now ts).longest =
      longestOf (sortDescInt (((sortDescInt ts).map getDateKey).dedup)).reverse := by
  simp only [calculateStreak, h, Bool.false_eq_true, if_false]

lemma dayArray_append_mem (ts : List Int) (t : Int)
    (h : getDateKey t ∈ ts.map getDateKey) :
    sortDescInt (((sortDescInt (ts ++ [t])).map getDateKey).dedup) =
      sortDescInt (((sortDescInt ts).map getDateKey).dedup) := by
  haveI : IsAntisymm Int (· ≥ ·) := ⟨fun a b h1 h2 => le_antisymm h2 h1⟩
  have hperm : List.Perm
      (sortDescInt (((sortDescInt (ts ++ [t])).map getDateKey).dedup))
      (sortDescInt (((sortDescInt ts).map getDateKey).dedup)) := by
    apply List.perm_of_nodup_nodup_toFinset_eq
    · exact ((sortDescInt_perm _).nodup_iff).mpr (List.nodup_dedup _)
    · exact ((sortDescInt_perm _).nodup_iff).mpr (List.nodup_dedup _)
    · apply List.toFinset.ext
      intro a
      rw [mem_dayArray, mem_dayArray]
      constructor
      · intro ha
        rw [List.map_append] at ha
        rcases List.mem_append.mp ha with ha | ha
        · exact ha
        · have haeq : a = getDateKey t := by simpa using ha
          rw [haeq]
          exact h
      · intro ha
        rw [List.map_append]
        exact List.mem_append.mpr (Or.inl ha)
  have hs1 : List.Sorted (· ≥ ·)
      (sortDescInt (((sortDescInt (ts ++ [t])).map getDateKey).dedup)) :=
    sortDescInt_sorted _
  have hs2 : List.Sorted (· ≥ ·)
      (sortDescInt (((sortDescInt ts).map getDateKey).dedup)) :=
    sortDescInt_sorted _
  exact List.eq_of_perm_of_sorted hperm hs1 hs2

/-- Claim C7: appending a timestamp whose calendar-day key is already an
active day of the list changes neither the current nor the longest streak. -/
theorem calculateStreak_duplicate_day (now : Int) (ts : List Int) (t : Int)
    (h : getDateKey t ∈ ts.map getDateKey) :
    (calculateStreak now (ts ++ [t])).current = (calculateStreak now ts).current ∧
    (calculateStreak now (ts ++ [t])).longest = (calculateStreak now ts).longest := by
  have hne_emp : ∀ l : List Int, l ≠ [] → l.isEmpty = false := by
    intro l hl
    cases l with
    | nil => exact absurd rfl hl
    | cons a l => rfl
  have hts : ts ≠ [] := by
    intro hnil
    rw [hnil] at h
    simp at h
  have hemp1 : (ts ++ [t]).isEmpty = false := hne_emp _ (by simp)
  have hemp2 : ts.isEmpty = false := hne_emp _ hts
  have hDA := dayArray_append_mem ts t h
  constructor
  · rw [calculateStreak_current_eq now _ hemp1,
      calculateStreak_current_eq now ts hemp2, hDA]
  · rw [calculateStreak_longest_eq now _ hemp1,
      calculateStreak_longest_eq now ts hemp2, hDA]

theorem calculateStreak_duplicate_day_witness :
    getDateKey 1000 ∈ ([0, 86400000] : List Int).map getDateKey ∧
    ((calculateStreak 86400000 ([0, 86400000] ++ [1000])).current =
        (calculateStreak 86400000 [0, 86400000]).current ∧
      (calculateStreak 86400000 ([0, 86400000] ++ [1000])).longest =
        (calculateStreak 86400000 [0, 86400000]).longest) :=
  ⟨by decide, calculateStreak_duplicate_day 86400000 [0, 86400000] 1000 (by decide)⟩

-- ============================================================================
-- The erase in countConsecutive is only a termination device
-- ============================================================================

lemma countConsecutive_erase_gt : ∀ (n : ℕ) (days : Finset Int) (x d : Int),
    days.card ≤ n → d < x →
    countConsecutive (days.erase x) d = countConsecutive days d := by
  intro n
  induction n with
  | zero =>
    intro days x d hcard hdx
    have hempty : days = ∅ := Finset.card_eq_zero.mp (Nat.le_zero.mp hcard)
    subst hempty
    rw [Finset.erase_empty]
  | succ n ih =>
    intro days x d hcard hdx
    by_cases hd : d ∈ days
    · have hd' : d ∈ days.erase x :=
        Finset.mem_erase.mpr ⟨by omega, hd⟩
      conv_lhs => rw [countConsecutive]
      conv_rhs => rw [countConsecutive]
      rw [dif_pos hd', dif_pos hd, Finset.erase_right_comm]
      have hcard' : (days.erase d).card ≤ n := by
        rw [Finset.card_erase_of_mem hd]
        omega
      rw [ih (days.erase d) x (d - 1) hcard' (by omega)]
    · have hd' : d ∉ days.erase x := fun hc => hd (Finset.mem_of_mem_erase hc)
      conv_lhs => rw [countConsecutive]
      conv_rhs => rw [countConsecutive]
      rw [dif_neg hd', dif_neg hd]

/-- The spec-modelled walk satisfies its intended plain recurrence: count one
for the current day when it is active and continue on the previous day of
the unchanged day set; the erase in the definition only serves termination. -/
lemma countConsecutive_unfold (days : Finset Int) (d : Int) :
    countConsecutive days d =
      if d ∈ days then countConsecutive days (d - 1) + 1 else 0 := by
  rw [countConsecutive]
  split_ifs with hd
  · rw [countConsecutive_erase_gt days.card days d (d - 1) le_rfl (by omega)]
  · rfl
